import Mathlib

/-!
Verification of the sam-web inference orchestration and tensor-shaping
pipeline.  Each definition below is a shallow embedding of a function of the
repository (file and line references in the doc comments); JavaScript numbers
are modelled as `ℚ`, typed arrays as `List ℚ`, byte buffers as `List ℕ`.
The theorems at the end of the file settle the specification claims.
-/

/-- Tensor axis ordering tag (`src/models/types.ts`, `TensorFormat`). -/
inductive TensorFormat
  | CHW
  | HWC
deriving DecidableEq

/-- Model family tag (`src/models/types.ts`, `ModelType`). -/
inductive ModelType
  | sam2
  | mobilesam
deriving DecidableEq

/-- Image/mask dimensions (`src/models/types.ts`, `Size`). -/
structure Size where
  w : ℚ
  h : ℚ
deriving DecidableEq

/-- ImageNet-style preprocessing parameters (`src/models/types.ts`,
`Normalization`). -/
structure Normalization where
  mean : List ℚ
  std : List ℚ
  scale : ℚ
deriving DecidableEq

/-- Model descriptor (`src/models/types.ts`, `ModelConfig`). -/
structure ModelConfig where
  id : String
  name : String
  description : String
  encoderUrl : String
  decoderUrl : String
  imageSize : Size
  maskSize : Size
  modelType : ModelType
  encoderInputName : String
  useBatchDimension : Bool
  tensorFormat : TensorFormat
  inputRange : Option ℚ := none
  normalization : Option Normalization := none
deriving DecidableEq

/-- MobileSAM descriptor (`src/models/config.ts` lines 14-28). -/
def MOBILESAM_CONFIG : ModelConfig :=
  { id := "mobilesam"
    name := "MobileSAM"
    description := "Mobile SAM (45 MB, TinyViT encoder) - Fast and lightweight"
    encoderUrl := "https://huggingface.co/Acly/MobileSAM/resolve/main/mobile_sam_image_encoder.onnx"
    decoderUrl := "https://huggingface.co/Acly/MobileSAM/resolve/main/sam_mask_decoder_multi.onnx"
    imageSize := ⟨1024, 1024⟩
    maskSize := ⟨256, 256⟩
    modelType := ModelType.mobilesam
    encoderInputName := "input_image"
    useBatchDimension := false
    tensorFormat := TensorFormat.HWC
    inputRange := some 255 }

/-- SAM2 Tiny descriptor (`src/models/config.ts` lines 36-48). -/
def SAM2_TINY_CONFIG : ModelConfig :=
  { id := "sam2_tiny"
    name := "SAM2 Tiny"
    description := "Meta's SAM2 Tiny (151 MB, Hiera encoder) - Higher quality"
    encoderUrl := "https://huggingface.co/g-ronimo/sam2-tiny/resolve/main/sam2_hiera_tiny_encoder.with_runtime_opt.ort"
    decoderUrl := "https://huggingface.co/g-ronimo/sam2-tiny/resolve/main/sam2_hiera_tiny_decoder_pr1.onnx"
    imageSize := ⟨1024, 1024⟩
    maskSize := ⟨256, 256⟩
    modelType := ModelType.sam2
    encoderInputName := "image"
    useBatchDimension := true
    tensorFormat := TensorFormat.CHW }

/-- Registry of model descriptors in insertion order, the alias `sam2`
mapping to the SAM2 Tiny descriptor (`src/models/config.ts` lines 53-58). -/
def MODEL_CONFIGS : List (String × ModelConfig) :=
  [("mobilesam", MOBILESAM_CONFIG), ("sam2_tiny", SAM2_TINY_CONFIG),
   ("sam2", SAM2_TINY_CONFIG)]

/-- Default model id (`src/models/config.ts` line 63). -/
def DEFAULT_MODEL_ID : String := "sam2_tiny"

/-- String keys at which a JavaScript property read on a plain object
literal falls through to a truthy inherited `Object.prototype` member
(methods, and the `__proto__` accessor returning `Object.prototype`
itself).  Any other absent key reads `undefined`, which is falsy. -/
def OBJECT_PROTOTYPE_MEMBERS : List String :=
  ["constructor", "hasOwnProperty", "isPrototypeOf", "propertyIsEnumerable",
   "toLocaleString", "toString", "valueOf", "__defineGetter__",
   "__defineSetter__", "__lookupGetter__", "__lookupSetter__", "__proto__"]

/-- What the property read `MODEL_CONFIGS[modelId]` can produce when it is
truthy: an own-property descriptor, or a member inherited from
`Object.prototype` (an opaque non-descriptor value, recorded by key). -/
inductive LookupResult
  | config (c : ModelConfig)
  | inherited (key : String)
deriving DecidableEq

/-- Registry lookup (`src/models/config.ts` lines 68-76); throwing is
modelled with `Except.error`.  `MODEL_CONFIGS[modelId]` is a JavaScript
property access: an own key yields its descriptor, a key naming an
inherited `Object.prototype` member yields that truthy member (so the
`if (!config)` guard does not throw), and any other key yields `undefined`
and throws. -/
def getModelConfig (modelId : String) : Except String LookupResult :=
  match MODEL_CONFIGS.lookup modelId with
  | some config => Except.ok (LookupResult.config config)
  | none =>
      if modelId ∈ OBJECT_PROTOTYPE_MEMBERS then
        Except.ok (LookupResult.inherited modelId)
      else
        Except.error ("Unknown model: " ++ modelId ++ ". Available models: " ++
          String.intercalate ", " (MODEL_CONFIGS.map Prod.fst))

/-- Placement box for `drawImage` (`x`, `y`, `w`, `h` as in the source). -/
structure Box where
  x : ℚ
  y : ℚ
  w : ℚ
  h : ℚ
deriving DecidableEq

/-- Aspect-preserving letterbox placement
(`src/core/imageutils.ts`, `resizeAndPadBox`, lines 140-154). -/
def resizeAndPadBox (sourceDim targetDim : Size) : Box :=
  if sourceDim.h = sourceDim.w then
    ⟨0, 0, targetDim.w, targetDim.h⟩
  else if sourceDim.w < sourceDim.h then
    let newW := sourceDim.w / sourceDim.h * targetDim.w
    let padLeft := ⌊(targetDim.w - newW) / 2⌋
    ⟨(padLeft : ℚ), 0, newW, targetDim.h⟩
  else
    let newH := sourceDim.h / sourceDim.w * targetDim.h
    let padTop := ⌊(targetDim.h - newH) / 2⌋
    ⟨0, (padTop : ℚ), targetDim.w, newH⟩

/-- Canvas dimensions (the geometric content of a canvas surface). -/
structure CanvasShape where
  width : ℚ
  height : ℚ
deriving DecidableEq

/-- Geometry of `createSquareCanvas`: the output canvas dimensions and the
destination box into which the source is drawn
(`src/core/imageutils.ts`, `createSquareCanvas`, lines 159-190). -/
def createSquareCanvasShape (source : CanvasShape) (targetSize : Size) :
    CanvasShape × Box :=
  (⟨targetSize.w, targetSize.h⟩,
   resizeAndPadBox ⟨source.width, source.height⟩ targetSize)

/-- RGBA canvas pixels to a channel-first `[1,3,H,W]` tensor with values
scaled to `[0,1]`; the flat output position `j` decomposes as channel
`j / (H*W)` and pixel `j % (H*W)`, exactly the positions the three writes
per pixel of the source loop fill
(`src/core/imageutils.ts`, `canvasToFloat32Array`, lines 196-215). -/
def canvasToFloat32Array (imageData : List ℕ) (width height : ℕ) :
    List ℚ × List ℕ :=
  let channelSize := height * width
  ((List.range (3 * channelSize)).map (fun j =>
      ((imageData.getD (4 * (j % channelSize) + j / channelSize) 0 : ℕ) : ℚ) / 255),
   [1, 3, height, width])

/-- Contiguous single-mask window of a stacked mask tensor; JavaScript
`Float32Array.slice(start, end)` clamps both ends to the buffer length
(`src/core/imageutils.ts`, `sliceTensor`, lines 241-251). -/
def sliceTensor (data : List ℚ) (dims : List ℕ) (maskIndex : ℕ) : List ℚ :=
  let width := dims.getD 2 0
  let height := dims.getD 3 0
  let stride := width * height
  let start := stride * maskIndex
  (data.drop start).take stride

/-- Whether the mask value at flat index `idx` strictly exceeds the
threshold; an out-of-range read (JavaScript `undefined`, hence `NaN`)
never compares greater. -/
def maskHit (data : List ℚ) (threshold : ℚ) (idx : ℕ) : Bool :=
  match data.get? idx with
  | some v => decide (threshold < v)
  | none => false

/-- Bounding box of the segmented region, in mask pixels
(`src/models/types.ts`, `BoundingBox`). -/
structure BoundingBox where
  x : ℕ
  y : ℕ
  width : ℕ
  height : ℕ
deriving DecidableEq

/-- One visit of the scan in `findMaskBounds`: update the running
`(minX, minY, maxX, maxY)` with pixel `(p.1, p.2) = (x, y)` when its value
exceeds the threshold. -/
def boundsStep (data : List ℚ) (width : ℕ) (threshold : ℚ)
    (acc : ℕ × ℕ × ℕ × ℕ) (p : ℕ × ℕ) : ℕ × ℕ × ℕ × ℕ :=
  if maskHit data threshold (p.2 * width + p.1) then
    (min acc.1 p.1, min acc.2.1 p.2, max acc.2.2.1 p.1, max acc.2.2.2 p.2)
  else acc

/-- Row-major scan order of the nested `for y / for x` loops. -/
def scanCoords (width height : ℕ) : List (ℕ × ℕ) :=
  (List.range height).flatMap (fun y => (List.range width).map (fun x => (x, y)))

/-- Bounding box of a mask: scan all pixels tracking min/max coordinates of
values exceeding the threshold, starting from `(width, height, 0, 0)`;
return a zero box when the tracked extremes are still inverted
(`src/core/imageutils.ts`, `findMaskBounds`, lines 289-323). -/
def findMaskBounds (data : List ℚ) (width height : ℕ) (threshold : ℚ) :
    BoundingBox :=
  let acc := (scanCoords width height).foldl (boundsStep data width threshold)
    (width, height, 0, 0)
  if acc.2.2.1 < acc.1 ∨ acc.2.2.2 < acc.2.1 then
    ⟨0, 0, 0, 0⟩
  else
    ⟨acc.1, acc.2.1, acc.2.2.1 - acc.1 + 1, acc.2.2.2 - acc.2.1 + 1⟩

/-- A 10×10 mask with a single positive pixel at `(5, 7)`
(flat index `7*10+5 = 75`). -/
def singleMask : List ℚ := (List.range 100).map (fun i => if i = 75 then 1 else 0)

/-- Flat `[C,H,W]` buffer reindexed to `[H,W,C]`: output position
`h*(W*C) + w*C + c` receives input position `c*(H*W) + h*W + w`; positions
the loops never write keep the zero fill of the fresh output array
(`src/worker.ts`, `chwToHwc`, lines 28-48). -/
def chwToHwc (chwArray : List ℚ) (channels height width : ℕ) : List ℚ :=
  (List.range chwArray.length).map (fun j =>
    if j < height * width * channels then
      chwArray.getD
        ((j % channels) * (height * width) + (j / (channels * width)) * width +
          (j / channels) % width) 0
    else 0)

/-- The reverse `[H,W,C]`-to-`[C,H,W]` transposition.  Modelled from the
spec: the spec's round-trip property `toHWC(toCHW(x)) == x` composes
`chwToHwc` with this inverse reindexing, which has no named counterpart in
the source. -/
def hwcToChw (hwcArray : List ℚ) (channels height width : ℕ) : List ℚ :=
  (List.range hwcArray.length).map (fun j =>
    if j < channels * (height * width) then
      hwcArray.getD
        (((j % (height * width)) / width) * (width * channels) +
          (j % width) * channels + j / (height * width)) 0
    else 0)

/-- Per-channel normalization `(value * scale - mean[c]) / std[c]` applied to
a `[C,H,W]` buffer; flat position `idx < channels*channelSize` has channel
`idx / channelSize`, and positions beyond the written range keep the zero
fill of the fresh output array
(`src/worker.ts`, `applyNormalization`, lines 53-72). -/
def applyNormalization (data : List ℚ) (channels height width : ℕ)
    (n : Normalization) : List ℚ :=
  let channelSize := height * width
  (List.range data.length).map (fun idx =>
    if idx < channels * channelSize then
      (data.getD idx 0 * n.scale - n.mean.getD (idx / channelSize) 0) /
        n.std.getD (idx / channelSize) 0
    else 0)

/-- Flat range rescale `value *= inputRange`
(`src/worker.ts`, `encodeImage` branch, lines 128-134). -/
def rescaleInput (data : List ℚ) (inputRange : ℚ) : List ℚ :=
  data.map (fun v => v * inputRange)

/-- Numeric preprocessing of the worker `encodeImage` branch before any
channel-layout transform: normalization when configured, then flat range
rescale when configured (`src/worker.ts`, lines 112-134). -/
def preprocessData (cfg : ModelConfig) (data : List ℚ) (shape : List ℕ) :
    List ℚ :=
  let d1 := match cfg.normalization with
    | some n =>
        applyNormalization data (shape.getD 1 0) (shape.getD 2 0) (shape.getD 3 0) n
    | none => data
  match cfg.inputRange with
  | some r => rescaleInput d1 r
  | none => d1

/-- Full tensor preparation of the worker `encodeImage` branch: numeric
preprocessing, then the channel-layout transform for `HWC` models, with the
shape adjusted per `useBatchDimension` (`src/worker.ts`, lines 112-152). -/
def encodePreprocess (cfg : ModelConfig) (data : List ℚ) (shape : List ℕ) :
    List ℚ × List ℕ :=
  let d2 := preprocessData cfg data shape
  match cfg.tensorFormat with
  | TensorFormat.HWC =>
      let actualShape := if cfg.useBatchDimension then shape else shape.drop 1
      let channels := actualShape.getD 0 0
      let height := actualShape.getD 1 0
      let width := actualShape.getD 2 0
      (chwToHwc d2 channels height width, [height, width, channels])
  | TensorFormat.CHW =>
      (d2, if cfg.useBatchDimension then shape else shape.drop 1)

/-- One step of the `findBestMask` selection loop of `SAMClient.segment`
(`src/SAMClient.ts` lines 216-223): `none` models the `-Infinity` initial
best score, which every finite score strictly exceeds. -/
def bestLoop : List ℚ → ℕ → ℕ → Option ℚ → ℕ × Option ℚ
  | [], _, bi, bs => (bi, bs)
  | s :: rest, i, bi, bs =>
      match bs with
      | none => bestLoop rest (i + 1) i (some s)
      | some b =>
          if b < s then bestLoop rest (i + 1) i (some s)
          else bestLoop rest (i + 1) bi bs

/-- Best-mask selection of `SAMClient.segment`: index and score of the first
maximum of the IoU predictions (`src/SAMClient.ts` lines 215-223). -/
def findBestMask (iouData : List ℚ) : ℕ × Option ℚ :=
  bestLoop iouData 0 0 none

/-- Mutable fields of the `SAM2` class, tracked by presence; the tensor and
session payloads live in the opaque inference backend
(`src/core/SAM2.ts` lines 236-242). -/
structure SAM2State where
  bufferEncoder : Bool
  bufferDecoder : Bool
  sessionEncoder : Bool
  sessionDecoder : Bool
  imageEncoded : Bool
deriving DecidableEq

/-- Calls on a `SAM2` instance; the `Bool` arguments record whether the
external effect (download, session creation, encoder run) succeeded. -/
inductive SAM2Op
  | downloadModels (encOk decOk : Bool)
  | createSessions (ok : Bool)
  | encodeImage (runOk : Bool)
  | decodeCall
  | dispose
deriving DecidableEq

/-- Field updates of each `SAM2` method (`src/core/SAM2.ts`): only a
successful `encodeImage` run assigns `imageEncoded`; `decode` at most
instantiates the decoder session; `dispose` clears everything. -/
def SAM2Step (s : SAM2State) (op : SAM2Op) : SAM2State :=
  match op with
  | SAM2Op.downloadModels encOk decOk =>
      { s with bufferEncoder := encOk, bufferDecoder := decOk }
  | SAM2Op.createSessions ok =>
      if ok then { s with sessionEncoder := true, sessionDecoder := true } else s
  | SAM2Op.encodeImage runOk =>
      if runOk then { s with sessionEncoder := true, imageEncoded := true } else s
  | SAM2Op.decodeCall =>
      { s with sessionDecoder := s.sessionDecoder || s.bufferDecoder }
  | SAM2Op.dispose => ⟨false, false, false, false, false⟩

/-- Freshly constructed `SAM2`: all slots null (`src/core/SAM2.ts`
lines 236-242). -/
def SAM2init : SAM2State := ⟨false, false, false, false, false⟩

/-- State after a sequence of calls on one `SAM2` instance. -/
def SAM2run (ops : List SAM2Op) : SAM2State :=
  ops.foldl SAM2Step SAM2init

/-- The guard at the top of `SAM2.decode`: without cached embeddings it
throws before the decoder session is ever consulted; `Except.ok` marks
reaching the session-running remainder of the method
(`src/core/SAM2.ts` lines 403-410). -/
def SAM2decodeCheck (s : SAM2State) : Except String Unit :=
  if s.imageEncoded then Except.ok ()
  else Except.error "[SAM] Image not encoded. Call encodeImage first."

/-- Mutable fields of `SAMClient` relevant to the segment guard: readiness
flag and presence of the stored letterboxed canvas
(`src/SAMClient.ts` lines 43-45). -/
structure SAMClientState where
  isReady : Bool
  imageCanvas : Bool
deriving DecidableEq

/-- Calls on a `SAMClient`; the `Bool` arguments record whether the external
effect (worker initialization, worker image encoding) succeeded. -/
inductive ClientOp
  | initCall (ok : Bool)
  | setImage (encodeOk : Bool)
  | dispose
deriving DecidableEq

/-- Field updates of each `SAMClient` method (`src/SAMClient.ts`):
`setImage` stores the canvas before awaiting the worker encode, so the
canvas is stored even when that encode subsequently fails (lines 124-144). -/
def clientStep (s : SAMClientState) (op : ClientOp) : SAMClientState :=
  match op with
  | ClientOp.initCall ok => if ok then { s with isReady := true } else s
  | ClientOp.setImage _ => if s.isReady then { s with imageCanvas := true } else s
  | ClientOp.dispose => ⟨false, false⟩

/-- State after a sequence of calls on one freshly constructed `SAMClient`. -/
def clientRun (ops : List ClientOp) : SAMClientState :=
  ops.foldl clientStep ⟨false, false⟩

/-- Outcome of a `setImage` call in state `s` whose worker encode succeeds
iff `encodeOk` (`src/SAMClient.ts` lines 124-144). -/
def setImageResult (s : SAMClientState) (encodeOk : Bool) : Except String Unit :=
  if !s.isReady then Except.error "Client not initialized. Call initialize() first."
  else if encodeOk then Except.ok ()
  else Except.error "Worker encode failed"

/-- The guard at the top of `SAMClient.segment`: it throws before doing any
work when the client is not ready or no canvas is stored; `Except.ok` marks
reaching the remainder of the method (`src/SAMClient.ts` lines 152-155). -/
def segmentCheck (s : SAMClientState) : Except String Unit :=
  if !s.isReady || !s.imageCanvas then
    Except.error "Image not set. Call setImage() first."
  else Except.ok ()

/-- External collaborators of `SAM2.downloadModel`: the OPFS cache content
by filename, the network fetch outcome (`none` models both a transport
error and a non-OK status), and whether the OPFS cache write succeeds. -/
structure DownloadEnv where
  cache : String → Option (List ℕ)
  fetchResult : Option (List ℕ)
  cacheWriteOk : Bool

/-- Cache filename derived from the artifact URL: the final path segment
(`src/core/SAM2.ts` line 272). -/
def filenameOf (url : String) : String :=
  ((url.splitOn "/").getLast?).getD "model.onnx"

/-- The download-and-cache tail of `SAM2.downloadModel`
(`src/core/SAM2.ts` lines 287-316).  Result components: the returned buffer
(`none` models returning `null`), whether the network was accessed, and
whether the cache write succeeded (its failure is caught and the buffer
still returned). -/
def downloadStep (env : DownloadEnv) : Option (List ℕ) × Bool × Bool :=
  match env.fetchResult with
  | none => (none, true, false)
  | some buffer => (some buffer, true, env.cacheWriteOk)

/-- `SAM2.downloadModel` (`src/core/SAM2.ts` lines 270-317): a non-empty
cached file is returned without touching the network; otherwise the
download-and-cache tail runs. -/
def downloadModel (env : DownloadEnv) (url : String) :
    Option (List ℕ) × Bool × Bool :=
  match env.cache (filenameOf url) with
  | some file => if 0 < file.length then (some file, false, false) else downloadStep env
  | none => downloadStep env

/-! ## Helper lemmas -/

theorem getD_range_map {α : Type} (f : ℕ → α) (n j : ℕ) (d : α) (h : j < n) :
    ((List.range n).map f).getD j d = f j := by
  have hlen : j < ((List.range n).map f).length := by simpa using h
  rw [List.getD_eq_getElem _ _ hlen]
  simp

theorem getD_map_in {α β : Type} (l : List α) (f : α → β) (j : ℕ) (da : α) (db : β)
    (h : j < l.length) : (l.map f).getD j db = f (l.getD j da) := by
  have hlen : j < (l.map f).length := by simpa using h
  rw [List.getD_eq_getElem _ _ hlen, List.getD_eq_getElem _ _ h]
  simp

theorem take_drop_length {α : Type} (l : List α) (s t : ℕ) :
    ((l.drop s).take t).length = min t (l.length - s) := by simp

theorem take_drop_getD (l : List ℚ) (s t j : ℕ)
    (h : j < ((l.drop s).take t).length) :
    ((l.drop s).take t).getD j 0 = l.getD (s + j) 0 := by
  have h1 : j < (l.drop s).length := by
    simp only [List.length_take, lt_min_iff] at h
    exact h.2
  have h2 : s + j < l.length := by
    simp only [List.length_drop] at h1
    omega
  rw [List.getD_eq_getElem _ _ h, List.getD_eq_getElem _ _ h2]
  rw [List.getElem_take, List.getElem_drop]

/-! ## Claim theorems -/

/-- C2 (amended): every id in the registry key set resolves to the
canonical descriptor (the alias `sam2` yields the descriptor whose `id` is
`sam2_tiny`, not a copy); an id naming an inherited `Object.prototype`
member returns that truthy member without throwing; and any other id
outside the key set produces an error message enumerating all valid ids.
(The original claim asserted the error for every id outside the key set;
the prototype chain refutes that — see the counterexample.) -/
theorem getModelConfig_registry_spec (modelId : String)
    (h1 : modelId ≠ "mobilesam") (h2 : modelId ≠ "sam2_tiny")
    (h3 : modelId ≠ "sam2") (h4 : modelId ∉ OBJECT_PROTOTYPE_MEMBERS) :
    getModelConfig "mobilesam" = Except.ok (LookupResult.config MOBILESAM_CONFIG) ∧
    MOBILESAM_CONFIG.id = "mobilesam" ∧
    getModelConfig "sam2_tiny" = Except.ok (LookupResult.config SAM2_TINY_CONFIG) ∧
    getModelConfig "sam2" = Except.ok (LookupResult.config SAM2_TINY_CONFIG) ∧
    SAM2_TINY_CONFIG.id = "sam2_tiny" ∧
    String.intercalate ", " (MODEL_CONFIGS.map Prod.fst) =
      "mobilesam, sam2_tiny, sam2" ∧
    (∀ key ∈ OBJECT_PROTOTYPE_MEMBERS,
      getModelConfig key = Except.ok (LookupResult.inherited key)) ∧
    getModelConfig modelId =
      Except.error ("Unknown model: " ++ modelId ++ ". Available models: " ++
        String.intercalate ", " (MODEL_CONFIGS.map Prod.fst)) := by
  have e1 : (modelId == "mobilesam") = false := beq_eq_false_iff_ne.mpr h1
  have e2 : (modelId == "sam2_tiny") = false := beq_eq_false_iff_ne.mpr h2
  have e3 : (modelId == "sam2") = false := beq_eq_false_iff_ne.mpr h3
  have hlook : List.lookup modelId MODEL_CONFIGS = none := by
    simp only [ MODEL_CONFIGS, List.lookup, e1, e2, e3]
  refine ⟨rfl, rfl, rfl, rfl, rfl, rfl, ?_, ?_⟩
  · intro key hkey
    fin_cases hkey <;> rfl
  · simp only [getModelConfig, hlook]
    rw [if_neg h4]

/-- C2 counterexample: the id `toString` lies outside the registry key set,
yet the property read `MODEL_CONFIGS["toString"]` finds the truthy
inherited `Object.prototype.toString`, the `if (!config)` guard passes, and
`getModelConfig` returns the inherited member instead of throwing the
unknown-model error the claim requires. -/
theorem getModelConfig_prototype_counterexample :
    getModelConfig "toString" = Except.ok (LookupResult.inherited "toString") ∧
    getModelConfig "toString" ≠
      Except.error
        "Unknown model: toString. Available models: mobilesam, sam2_tiny, sam2" :=
  ⟨rfl, nofun⟩

/-- C2 witness: instantiation at the unknown id `vit_h`, which is neither a
registry key nor an `Object.prototype` member. -/
theorem getModelConfig_registry_spec_witness :
    getModelConfig "mobilesam" = Except.ok (LookupResult.config MOBILESAM_CONFIG) ∧
    MOBILESAM_CONFIG.id = "mobilesam" ∧
    getModelConfig "sam2_tiny" = Except.ok (LookupResult.config SAM2_TINY_CONFIG) ∧
    getModelConfig "sam2" = Except.ok (LookupResult.config SAM2_TINY_CONFIG) ∧
    SAM2_TINY_CONFIG.id = "sam2_tiny" ∧
    String.intercalate ", " (MODEL_CONFIGS.map Prod.fst) =
      "mobilesam, sam2_tiny, sam2" ∧
    (∀ key ∈ OBJECT_PROTOTYPE_MEMBERS,
      getModelConfig key = Except.ok (LookupResult.inherited key)) ∧
    getModelConfig "vit_h" =
      Except.error ("Unknown model: " ++ "vit_h" ++ ". Available models: " ++
        String.intercalate ", " (MODEL_CONFIGS.map Prod.fst)) :=
  getModelConfig_registry_spec "vit_h" (by decide) (by decide) (by decide)
    (by decide)

/-- C10: `sliceTensor` is total and returns the window
`[stride*maskIndex, stride*maskIndex + stride)` of the buffer, clamped to
the buffer length (`stride = dims[2]*dims[3]`); an out-of-range mask index
yields a shorter or empty list, never an error. -/
theorem sliceTensor_spec (data : List ℚ) (dims : List ℕ)
    (maskIndex width height : ℕ)
    (hw : dims.getD 2 0 = width) (hh : dims.getD 3 0 = height) :
    (sliceTensor data dims maskIndex).length =
      min (width * height) (data.length - width * height * maskIndex) ∧
    (∀ j, j < (sliceTensor data dims maskIndex).length →
      (sliceTensor data dims maskIndex).getD j 0 =
        data.getD (width * height * maskIndex + j) 0) ∧
    (data.length ≤ width * height * maskIndex →
      sliceTensor data dims maskIndex = []) := by
  subst hw hh
  refine ⟨take_drop_length data _ _, ?_, ?_⟩
  · intro j hj
    exact take_drop_getD data _ _ j hj
  · intro hle
    show (data.drop _).take _ = []
    rw [List.drop_eq_nil_of_le hle]
    simp

/-- C10 witness: a `[1,3,2,1]` tensor sliced at mask index 2 and at the
out-of-range mask index 5. -/
theorem sliceTensor_spec_witness :
    (sliceTensor [10, 20, 30, 40, 50, 60] [1, 3, 2, 1] 2).length =
      min (2 * 1) (([10, 20, 30, 40, 50, 60] : List ℚ).length - 2 * 1 * 2) ∧
    (∀ j, j < (sliceTensor [10, 20, 30, 40, 50, 60] [1, 3, 2, 1] 2).length →
      (sliceTensor [10, 20, 30, 40, 50, 60] [1, 3, 2, 1] 2).getD j 0 =
        ([10, 20, 30, 40, 50, 60] : List ℚ).getD (2 * 1 * 2 + j) 0) ∧
    (([10, 20, 30, 40, 50, 60] : List ℚ).length ≤ 2 * 1 * 2 →
      sliceTensor [10, 20, 30, 40, 50, 60] [1, 3, 2, 1] 2 = []) :=
  sliceTensor_spec [10, 20, 30, 40, 50, 60] [1, 3, 2, 1] 2 2 1 rfl rfl

/-- C9: a non-empty cached file is returned without network access; on a
cache miss a failed fetch returns `null` (never throws), and a successful
fetch returns the downloaded bytes whether or not the cache write
succeeds. -/
theorem downloadModel_cache_spec (env : DownloadEnv) (url : String) :
    (∀ file, env.cache (filenameOf url) = some file → 0 < file.length →
      downloadModel env url = (some file, false, false)) ∧
    ((∀ file, env.cache (filenameOf url) = some file → file.length = 0) →
      (env.fetchResult = none → downloadModel env url = (none, true, false)) ∧
      (∀ buffer, env.fetchResult = some buffer →
        downloadModel env url = (some buffer, true, env.cacheWriteOk))) := by
  constructor
  · intro file hc hlen
    unfold downloadModel
    rw [hc]
    simp [hlen]
  · intro hmiss
    have hstep : downloadModel env url = downloadStep env := by
      unfold downloadModel
      cases hcc : env.cache (filenameOf url) with
      | none => rfl
      | some file =>
          have hz := hmiss file hcc
          simp [hz]
    constructor
    · intro hf
      rw [hstep]
      unfold downloadStep
      rw [hf]
    · intro buffer hf
      rw [hstep]
      unfold downloadStep
      rw [hf]

/-- C9 witness: an empty cache with a successful fetch of `[7]` and a
failing cache write still returns the downloaded bytes. -/
theorem downloadModel_cache_spec_witness :
    downloadModel ⟨fun _ => none, some [7], false⟩ "https://host/m.onnx" =
      (some [7], true, false) :=
  ((downloadModel_cache_spec ⟨fun _ => none, some [7], false⟩
    "https://host/m.onnx").2 (by intro file h; cases h)).2 [7] rfl

theorem SAM2_imageEncoded_invariant (ops : List SAM2Op) :
    ∀ s : SAM2State, SAM2Op.encodeImage true ∉ ops → s.imageEncoded = false →
      (ops.foldl SAM2Step s).imageEncoded = false := by
  induction ops with
  | nil => intro s _ h; exact h
  | cons op rest ih =>
      intro s hmem h
      have hop : op ≠ SAM2Op.encodeImage true := by
        intro he
        exact hmem (he ▸ List.mem_cons_self op rest)
      have hrest : SAM2Op.encodeImage true ∉ rest :=
        fun hm => hmem (List.mem_cons_of_mem op hm)
      refine ih (SAM2Step s op) hrest ?_
      cases op with
      | downloadModels encOk decOk => simpa [SAM2Step] using h
      | createSessions ok => cases ok <;> simp [SAM2Step, h]
      | encodeImage runOk =>
          cases runOk with
          | true => exact absurd rfl hop
          | false => simpa [SAM2Step] using h
      | decodeCall => simpa [SAM2Step] using h
      | dispose => simp [SAM2Step, SAM2init]

theorem client_imageCanvas_invariant (ops : List ClientOp) :
    ∀ s : SAMClientState, (∀ e, ClientOp.setImage e ∉ ops) → s.imageCanvas = false →
      (ops.foldl clientStep s).imageCanvas = false := by
  induction ops with
  | nil => intro s _ h; exact h
  | cons op rest ih =>
      intro s hmem h
      have hrest : ∀ e, ClientOp.setImage e ∉ rest :=
        fun e hm => hmem e (List.mem_cons_of_mem op hm)
      refine ih (clientStep s op) hrest ?_
      cases op with
      | initCall ok => cases ok <;> simp [clientStep, h]
      | setImage e => exact absurd (List.mem_cons_self _ rest) (hmem e)
      | dispose => simp [clientStep]

/-- C8 (amended): after any sequence of `SAM2` calls containing no successful
`encodeImage`, `decode` fails with the image-not-encoded error before the
decoder session is consulted; and on a `SAMClient` on which `setImage` has
never been called, `segment` fails with the unset-image error before doing
any work.  (The original claim let a failed `setImage` count as "no
successful `setImage`"; the code stores the canvas before awaiting the
worker encode, so only the absence of any `setImage` call guarantees the
guard failure — see the counterexample.) -/
theorem decode_requires_encode (ops : List SAM2Op) (cops : List ClientOp)
    (hE : SAM2Op.encodeImage true ∉ ops)
    (hC : ∀ e, ClientOp.setImage e ∉ cops) :
    (SAM2run ops).imageEncoded = false ∧
    SAM2decodeCheck (SAM2run ops) =
      Except.error "[SAM] Image not encoded. Call encodeImage first." ∧
    segmentCheck (clientRun cops) =
      Except.error "Image not set. Call setImage() first." := by
  have h1 : (SAM2run ops).imageEncoded = false :=
    SAM2_imageEncoded_invariant ops SAM2init hE rfl
  have h2 : (clientRun cops).imageCanvas = false :=
    client_imageCanvas_invariant cops ⟨false, false⟩ hC rfl
  refine ⟨h1, ?_, ?_⟩
  · simp [SAM2decodeCheck, h1]
  · simp [segmentCheck, h2]

/-- C8 witness: downloading models, creating sessions and calling `decode`
without any `encodeImage`; a client that is initialized but never given an
image. -/
theorem decode_requires_encode_witness :
    (SAM2run [SAM2Op.downloadModels true true, SAM2Op.createSessions true,
      SAM2Op.decodeCall]).imageEncoded = false ∧
    SAM2decodeCheck (SAM2run [SAM2Op.downloadModels true true,
      SAM2Op.createSessions true, SAM2Op.decodeCall]) =
      Except.error "[SAM] Image not encoded. Call encodeImage first." ∧
    segmentCheck (clientRun [ClientOp.initCall true]) =
      Except.error "Image not set. Call setImage() first." :=
  decode_requires_encode
    [SAM2Op.downloadModels true true, SAM2Op.createSessions true,
      SAM2Op.decodeCall]
    [ClientOp.initCall true] (by decide) (by decide)

/-- C8 counterexample: a `setImage` call whose worker encode fails throws
(so no successful `setImage` has occurred), yet the stored canvas makes the
subsequent `segment` guard pass, so `segment` does not fail with the
unset-image error; this refutes the claim as stated for the `SAMClient`
half. -/
theorem segment_after_failed_setImage :
    setImageResult (clientRun [ClientOp.initCall true]) false =
      Except.error "Worker encode failed" ∧
    segmentCheck (clientRun [ClientOp.initCall true, ClientOp.setImage false]) =
      Except.ok () :=
  ⟨rfl, rfl⟩

theorem bestLoop_char (l : List ℚ) :
    ∀ (n bi : ℕ) (b : ℚ),
      (bestLoop l n bi (some b) = (bi, some b) ∧
        ∀ j, j < l.length → l.getD j 0 ≤ b) ∨
      (∃ k, k < l.length ∧
        bestLoop l n bi (some b) = (n + k, some (l.getD k 0)) ∧
        b < l.getD k 0 ∧ (∀ j, j < l.length → l.getD j 0 ≤ l.getD k 0) ∧
        (∀ j, j < k → l.getD j 0 < l.getD k 0)) := by
  induction l with
  | nil =>
      intro n bi b
      left
      exact ⟨rfl, fun j hj => absurd hj (by simp)⟩
  | cons a l ih =>
      intro n bi b
      by_cases hba : b < a
      · rcases ih (n + 1) n a with ⟨heq, hall⟩ | ⟨k, hk, heq, hlt, hall, hbef⟩
        · right
          refine ⟨0, by simp, ?_, by simpa using hba, ?_, ?_⟩
          · show bestLoop (a :: l) n bi (some b) = (n + 0, some ((a :: l).getD 0 0))
            simp only [bestLoop, if_pos hba, List.getD_cons_zero, Nat.add_zero]
            exact heq
          · intro j hj
            cases j with
            | zero => simp
            | succ j =>
                simp only [List.getD_cons_succ, List.getD_cons_zero]
                exact hall j (by simpa using hj)
          · intro j hj
            exact absurd hj (Nat.not_lt_zero j)
        · right
          refine ⟨k + 1, by simpa using hk, ?_, ?_, ?_, ?_⟩
          · show bestLoop (a :: l) n bi (some b) = (n + (k + 1), some ((a :: l).getD (k + 1) 0))
            simp only [bestLoop, if_pos hba, List.getD_cons_succ]
            rw [heq]
            congr 1
            omega
          · simpa using lt_trans hba hlt
          · intro j hj
            cases j with
            | zero => simpa using le_of_lt hlt
            | succ j =>
                simp only [List.getD_cons_succ]
                exact hall j (by simpa using hj)
          · intro j hj
            cases j with
            | zero => simpa using hlt
            | succ j =>
                simp only [List.getD_cons_succ]
                exact hbef j (by omega)
      · have hab : a ≤ b := le_of_not_lt hba
        rcases ih (n + 1) bi b with ⟨heq, hall⟩ | ⟨k, hk, heq, hlt, hall, hbef⟩
        · left
          constructor
          · show bestLoop (a :: l) n bi (some b) = (bi, some b)
            simp only [bestLoop, if_neg hba]
            exact heq
          · intro j hj
            cases j with
            | zero => simpa using hab
            | succ j =>
                simp only [List.getD_cons_succ]
                exact hall j (by simpa using hj)
        · right
          refine ⟨k + 1, by simpa using hk, ?_, ?_, ?_, ?_⟩
          · show bestLoop (a :: l) n bi (some b) = (n + (k + 1), some ((a :: l).getD (k + 1) 0))
            simp only [bestLoop, if_neg hba, List.getD_cons_succ]
            rw [heq]
            congr 1
            omega
          · simpa using hlt
          · intro j hj
            cases j with
            | zero => simpa using le_of_lt (lt_of_le_of_lt hab hlt)
            | succ j =>
                simp only [List.getD_cons_succ]
                exact hall j (by simpa using hj)
          · intro j hj
            cases j with
            | zero => simpa using lt_of_le_of_lt hab hlt
            | succ j =>
                simp only [List.getD_cons_succ]
                exact hbef j (by omega)

/-- C4: the best-mask selection of `segment` returns the least index
attaining the maximum IoU score (first seen wins exact ties) together with
that score; in particular on `[0.2, 0.91, 0.91, 0.4]` it selects index 1
with score 0.91. -/
theorem findBestMask_first_max (scores : List ℚ) (hne : scores ≠ []) :
    (∃ i m, findBestMask scores = (i, some m) ∧ i < scores.length ∧
      scores.getD i 0 = m ∧ (∀ j, j < scores.length → scores.getD j 0 ≤ m) ∧
      (∀ j, j < i → scores.getD j 0 < m)) ∧
    findBestMask [2/10, 91/100, 91/100, 4/10] = (1, some (91/100)) := by
  constructor
  · cases scores with
    | nil => exact absurd rfl hne
    | cons a rest =>
        have hstep : findBestMask (a :: rest) = bestLoop rest 1 0 (some a) := rfl
        rcases bestLoop_char rest 1 0 a with ⟨heq, hall⟩ | ⟨k, hk, heq, hlt, hall, hbef⟩
        · refine ⟨0, a, by rw [hstep, heq], by simp, by simp, ?_, ?_⟩
          · intro j hj
            cases j with
            | zero => simp
            | succ j =>
                simp only [List.getD_cons_succ]
                exact hall j (by simpa using hj)
          · intro j hj
            exact absurd hj (Nat.not_lt_zero j)
        · refine ⟨1 + k, rest.getD k 0, by rw [hstep, heq],
            by simp only [List.length_cons]; omega, ?_, ?_, ?_⟩
          · have : 1 + k = k + 1 := by omega
            rw [this]
            simp
          · intro j hj
            cases j with
            | zero => simpa using le_of_lt hlt
            | succ j =>
                simp only [List.getD_cons_succ]
                exact hall j (by simpa using hj)
          · intro j hj
            cases j with
            | zero => simpa using hlt
            | succ j =>
                simp only [List.getD_cons_succ]
                exact hbef j (by omega)
  · norm_num [findBestMask, bestLoop]

/-- C4 witness: instantiation at the concrete score list `[3, 7, 7, 5]`. -/
theorem findBestMask_first_max_witness :
    (∃ i m, findBestMask [3, 7, 7, 5] = (i, some m) ∧
      i < ([3, 7, 7, 5] : List ℚ).length ∧
      ([3, 7, 7, 5] : List ℚ).getD i 0 = m ∧
      (∀ j, j < ([3, 7, 7, 5] : List ℚ).length →
        ([3, 7, 7, 5] : List ℚ).getD j 0 ≤ m) ∧
      (∀ j, j < i → ([3, 7, 7, 5] : List ℚ).getD j 0 < m)) ∧
    findBestMask [2/10, 91/100, 91/100, 4/10] = (1, some (91/100)) :=
  findBestMask_first_max [3, 7, 7, 5] (by decide)

/-- C3: the letterbox placement of `resizeAndPadBox` for positive source
dimensions and a square target: a square source fills the target exactly; a
portrait source is scaled to target height and centered horizontally with
floor-rounded padding; a landscape source mirrors this vertically; the
output canvas of `createSquareCanvas` always has the target size, and the
content box preserves the source aspect ratio exactly
(`box.w * h = box.h * w`, hence within one pixel after rasterization). -/
theorem resizeAndPadBox_letterbox_spec (w h t : ℚ) (hw : 0 < w) (hh : 0 < h) :
    (h = w → resizeAndPadBox ⟨w, h⟩ ⟨t, t⟩ = ⟨0, 0, t, t⟩) ∧
    (w < h → resizeAndPadBox ⟨w, h⟩ ⟨t, t⟩ =
      ⟨((⌊(t - w / h * t) / 2⌋ : ℤ) : ℚ), 0, w / h * t, t⟩) ∧
    (h < w → resizeAndPadBox ⟨w, h⟩ ⟨t, t⟩ =
      ⟨0, ((⌊(t - h / w * t) / 2⌋ : ℤ) : ℚ), t, h / w * t⟩) ∧
    (createSquareCanvasShape ⟨w, h⟩ ⟨t, t⟩).1 = ⟨t, t⟩ ∧
    (resizeAndPadBox ⟨w, h⟩ ⟨t, t⟩).w * h = (resizeAndPadBox ⟨w, h⟩ ⟨t, t⟩).h * w := by
  refine ⟨?_, ?_, ?_, rfl, ?_⟩
  · intro he
    simp [resizeAndPadBox, he]
  · intro hlt
    have hne : h ≠ w := ne_of_gt hlt
    simp [resizeAndPadBox, hne, hlt]
  · intro hlt
    have hne : h ≠ w := ne_of_lt hlt
    have hnlt : ¬ w < h := not_lt_of_gt hlt
    simp [resizeAndPadBox, hne, hnlt]
  · rcases lt_trichotomy w h with hlt | he | hgt
    · have hne : h ≠ w := ne_of_gt hlt
      simp only [resizeAndPadBox, if_neg hne, if_pos hlt]
      field_simp
      ring
    · simp [resizeAndPadBox, he]
    · have hne : h ≠ w := ne_of_lt hgt
      have hnlt : ¬ w < h := not_lt_of_gt hgt
      simp only [resizeAndPadBox, if_neg hne, if_neg hnlt]
      field_simp
      ring

/-- C3 witness: a 2×4 portrait source letterboxed into a 10×10 target. -/
theorem resizeAndPadBox_letterbox_spec_witness :
    (0 : ℚ) < 2 ∧ (0 : ℚ) < 4 ∧
    (((4 : ℚ) = 2 → resizeAndPadBox ⟨2, 4⟩ ⟨10, 10⟩ = ⟨0, 0, 10, 10⟩) ∧
    ((2 : ℚ) < 4 → resizeAndPadBox ⟨2, 4⟩ ⟨10, 10⟩ =
      ⟨((⌊((10 : ℚ) - 2 / 4 * 10) / 2⌋ : ℤ) : ℚ), 0, 2 / 4 * 10, 10⟩) ∧
    ((4 : ℚ) < 2 → resizeAndPadBox ⟨2, 4⟩ ⟨10, 10⟩ =
      ⟨0, ((⌊((10 : ℚ) - 4 / 2 * 10) / 2⌋ : ℤ) : ℚ), 10, 4 / 2 * 10⟩) ∧
    (createSquareCanvasShape ⟨2, 4⟩ ⟨10, 10⟩).1 = ⟨10, 10⟩ ∧
    (resizeAndPadBox ⟨2, 4⟩ ⟨10, 10⟩).w * 4 = (resizeAndPadBox ⟨2, 4⟩ ⟨10, 10⟩).h * 2) :=
  ⟨by norm_num, by norm_num,
    resizeAndPadBox_letterbox_spec 2 4 10 (by norm_num) (by norm_num)⟩

/-- C6: `canvasToFloat32Array` returns shape `[1,3,H,W]` and a channel-first
buffer of length `3*H*W` in which channel `c` (0=R, 1=G, 2=B) at pixel `i`
equals `pixel[4*i+c] / 255`, so every value lies in `[0,1]`; the alpha
component `pixel[4*i+3]` has no influence on the output. -/
theorem canvasToFloat32Array_spec (d : List ℕ) (W H : ℕ)
    (hlen : d.length = 4 * (H * W)) (hbytes : ∀ v ∈ d, v ≤ 255) :
    (canvasToFloat32Array d W H).2 = [1, 3, H, W] ∧
    (canvasToFloat32Array d W H).1.length = 3 * (H * W) ∧
    (∀ c i, c < 3 → i < H * W →
      (canvasToFloat32Array d W H).1.getD (c * (H * W) + i) 0 =
        (d.getD (4 * i + c) 0 : ℚ) / 255 ∧
      0 ≤ (canvasToFloat32Array d W H).1.getD (c * (H * W) + i) 0 ∧
      (canvasToFloat32Array d W H).1.getD (c * (H * W) + i) 0 ≤ 1) ∧
    (∀ e : List ℕ,
      (∀ i c, c < 3 → e.getD (4 * i + c) 0 = d.getD (4 * i + c) 0) →
      (canvasToFloat32Array e W H).1 = (canvasToFloat32Array d W H).1) := by
  refine ⟨rfl, by simp [canvasToFloat32Array], ?_, ?_⟩
  · intro c i hc hi
    have hcs : 0 < H * W := lt_of_le_of_lt (Nat.zero_le i) hi
    have hj : c * (H * W) + i < 3 * (H * W) := by
      have h1 : c * (H * W) ≤ 2 * (H * W) := Nat.mul_le_mul_right _ (by omega)
      omega
    have hmod : (c * (H * W) + i) % (H * W) = i := by
      have e1 : c * (H * W) + i = (H * W) * c + i := by ring
      rw [e1, Nat.mul_add_mod, Nat.mod_eq_of_lt hi]
    have hdiv : (c * (H * W) + i) / (H * W) = c := by
      have e1 : c * (H * W) + i = (H * W) * c + i := by ring
      rw [e1, Nat.mul_add_div hcs, Nat.div_eq_of_lt hi, Nat.add_zero]
    have hval : (canvasToFloat32Array d W H).1.getD (c * (H * W) + i) 0 =
        (d.getD (4 * i + c) 0 : ℚ) / 255 := by
      show ((List.range (3 * (H * W))).map (fun j =>
        ((d.getD (4 * (j % (H * W)) + j / (H * W)) 0 : ℕ) : ℚ) / 255)).getD
          (c * (H * W) + i) 0 = (d.getD (4 * i + c) 0 : ℚ) / 255
      rw [getD_range_map _ _ _ _ hj, hmod, hdiv]
    have hidx : 4 * i + c < d.length := by omega
    have hv : d.getD (4 * i + c) 0 ≤ 255 := by
      rw [List.getD_eq_getElem d 0 hidx]
      exact hbytes _ (List.getElem_mem hidx)
    refine ⟨hval, ?_, ?_⟩
    · rw [hval]
      positivity
    · rw [hval, div_le_one (by norm_num : (0 : ℚ) < 255)]
      exact_mod_cast hv
  · intro e he
    show (List.range (3 * (H * W))).map (fun j =>
        ((e.getD (4 * (j % (H * W)) + j / (H * W)) 0 : ℕ) : ℚ) / 255) =
      (List.range (3 * (H * W))).map (fun j =>
        ((d.getD (4 * (j % (H * W)) + j / (H * W)) 0 : ℕ) : ℚ) / 255)
    apply List.map_congr_left
    intro j hjmem
    have hj : j < 3 * (H * W) := List.mem_range.mp hjmem
    have hcs : 0 < H * W := by
      rcases Nat.eq_zero_or_pos (H * W) with h0 | h0
      · omega
      · exact h0
    have hdivlt : j / (H * W) < 3 := (Nat.div_lt_iff_lt_mul hcs).mpr (by omega)
    rw [he (j % (H * W)) (j / (H * W)) hdivlt]

/-- C6 witness: a single-pixel canvas with RGBA bytes `[10, 20, 30, 40]`. -/
theorem canvasToFloat32Array_spec_witness :
    (canvasToFloat32Array [10, 20, 30, 40] 1 1).2 = [1, 3, 1, 1] ∧
    (canvasToFloat32Array [10, 20, 30, 40] 1 1).1.length = 3 * (1 * 1) ∧
    (∀ c i, c < 3 → i < 1 * 1 →
      (canvasToFloat32Array [10, 20, 30, 40] 1 1).1.getD (c * (1 * 1) + i) 0 =
        (([10, 20, 30, 40] : List ℕ).getD (4 * i + c) 0 : ℚ) / 255 ∧
      0 ≤ (canvasToFloat32Array [10, 20, 30, 40] 1 1).1.getD (c * (1 * 1) + i) 0 ∧
      (canvasToFloat32Array [10, 20, 30, 40] 1 1).1.getD (c * (1 * 1) + i) 0 ≤ 1) ∧
    (∀ e : List ℕ,
      (∀ i c, c < 3 →
        e.getD (4 * i + c) 0 = ([10, 20, 30, 40] : List ℕ).getD (4 * i + c) 0) →
      (canvasToFloat32Array e 1 1).1 =
        (canvasToFloat32Array [10, 20, 30, 40] 1 1).1) :=
  canvasToFloat32Array_spec [10, 20, 30, 40] 1 1 (by decide) (by decide)

theorem mixed_index_lt (A B a b : ℕ) (ha : a < A) (hb : b < B) :
    a * B + b < A * B := by
  have h1 : a * B + b < (a + 1) * B := by
    rw [add_mul, one_mul]
    omega
  have h2 : (a + 1) * B ≤ A * B := Nat.mul_le_mul_right B ha
  omega

theorem mixed_mod (B a b : ℕ) (hb : b < B) : (a * B + b) % B = b := by
  rw [mul_comm a B, Nat.mul_add_mod, Nat.mod_eq_of_lt hb]

theorem mixed_div (B a b : ℕ) (hb : b < B) : (a * B + b) / B = a := by
  have hB : 0 < B := lt_of_le_of_lt (Nat.zero_le b) hb
  rw [mul_comm a B, Nat.mul_add_div hB, Nat.div_eq_of_lt hb, Nat.add_zero]

theorem index_recompose (C W j : ℕ) :
    (j / (C * W)) * (W * C) + ((j / C) % W) * C + j % C = j := by
  have e1 : C * (j / C) + j % C = j := Nat.div_add_mod j C
  have e2 : W * (j / C / W) + (j / C) % W = j / C := Nat.div_add_mod (j / C) W
  have e3 : j / C / W = j / (C * W) := Nat.div_div_eq_div_mul j C W
  have e4 : (j / (C * W)) * (W * C) + ((j / C) % W) * C + j % C
      = C * (W * (j / (C * W)) + (j / C) % W) + j % C := by ring
  rw [e4, ← e3, e2, e1]

theorem index_recompose2 (M W j : ℕ) :
    (j / M) * M + ((j % M) / W) * W + (j % M) % W = j := by
  have e1 : M * (j / M) + j % M = j := Nat.div_add_mod j M
  have e2 : W * (j % M / W) + (j % M) % W = j % M := Nat.div_add_mod (j % M) W
  have e4 : (j / M) * M + ((j % M) / W) * W + (j % M) % W
      = M * (j / M) + (W * (j % M / W) + (j % M) % W) := by ring
  rw [e4, e2, e1]

theorem chwToHwc_getD (x : List ℚ) (C H W c h w : ℕ)
    (hlen : x.length = C * (H * W)) (hc : c < C) (hh : h < H) (hw : w < W) :
    (chwToHwc x C H W).getD (h * (W * C) + w * C + c) 0 =
      x.getD (c * (H * W) + h * W + w) 0 := by
  have hinner : h * W + w < H * W := mixed_index_lt H W h w hh hw
  have hj0 : (h * W + w) * C + c < (H * W) * C := mixed_index_lt (H * W) C _ c hinner hc
  have hjeq : h * (W * C) + w * C + c = (h * W + w) * C + c := by ring
  have hjlt : h * (W * C) + w * C + c < x.length := by
    rw [hlen, hjeq]
    calc (h * W + w) * C + c < (H * W) * C := hj0
    _ = C * (H * W) := by ring
  have hguard : h * (W * C) + w * C + c < H * W * C := by
    rw [hjeq]
    calc (h * W + w) * C + c < (H * W) * C := hj0
    _ = H * W * C := by ring
  show ((List.range x.length).map (fun j =>
      if j < H * W * C then
        x.getD ((j % C) * (H * W) + (j / (C * W)) * W + (j / C) % W) 0
      else 0)).getD (h * (W * C) + w * C + c) 0 = _
  rw [getD_range_map _ _ _ _ hjlt, if_pos hguard]
  have hm1 : (h * (W * C) + w * C + c) % C = c := by
    rw [hjeq]
    exact mixed_mod C _ c hc
  have hd1 : (h * (W * C) + w * C + c) / C = h * W + w := by
    rw [hjeq]
    exact mixed_div C _ c hc
  have hd2 : (h * (W * C) + w * C + c) / (C * W) = h := by
    rw [← Nat.div_div_eq_div_mul, hd1]
    exact mixed_div W h w hw
  rw [hm1, hd1, hd2, mixed_mod W h w hw]

theorem hwcToChw_getD (x : List ℚ) (C H W c h w : ℕ)
    (hlen : x.length = C * (H * W)) (hc : c < C) (hh : h < H) (hw : w < W) :
    (hwcToChw x C H W).getD (c * (H * W) + h * W + w) 0 =
      x.getD (h * (W * C) + w * C + c) 0 := by
  have hinner : h * W + w < H * W := mixed_index_lt H W h w hh hw
  have hjeq : c * (H * W) + h * W + w = c * (H * W) + (h * W + w) := by ring
  have hguard : c * (H * W) + h * W + w < C * (H * W) := by
    rw [hjeq]
    exact mixed_index_lt C (H * W) c _ hc hinner
  have hjlt : c * (H * W) + h * W + w < x.length := by
    rw [hlen]
    exact hguard
  show ((List.range x.length).map (fun j =>
      if j < C * (H * W) then
        x.getD (((j % (H * W)) / W) * (W * C) + (j % W) * C + j / (H * W)) 0
      else 0)).getD (c * (H * W) + h * W + w) 0 = _
  rw [getD_range_map _ _ _ _ hjlt, if_pos hguard]
  have hm1 : (c * (H * W) + h * W + w) % (H * W) = h * W + w := by
    rw [hjeq]
    exact mixed_mod (H * W) c _ hinner
  have hd1 : (c * (H * W) + h * W + w) / (H * W) = c := by
    rw [hjeq]
    exact mixed_div (H * W) c _ hinner
  have hmW : (c * (H * W) + h * W + w) % W = w := by
    have e : c * (H * W) + h * W + w = (c * H + h) * W + w := by ring
    rw [e]
    exact mixed_mod W _ w hw
  rw [hm1, hd1, hmW, mixed_div W h w hw]

/-- C7: `chwToHwc` maps the element at `[C,H,W]`-index `(c,h,w)` to
`[H,W,C]`-index `(h,w,c)`; composed with the reverse transposition it is the
identity in both orders (`toHWC (toCHW x) = x` and `toCHW (toHWC x) = x`),
so it is a bijection on index positions. -/
theorem chwToHwc_transpose_spec (x : List ℚ) (C H W : ℕ)
    (hlen : x.length = C * (H * W)) :
    (∀ c h w, c < C → h < H → w < W →
      (chwToHwc x C H W).getD (h * (W * C) + w * C + c) 0 =
        x.getD (c * (H * W) + h * W + w) 0) ∧
    chwToHwc (hwcToChw x C H W) C H W = x ∧
    hwcToChw (chwToHwc x C H W) C H W = x := by
  have hylen : (hwcToChw x C H W).length = x.length := by simp [hwcToChw]
  have hzlen : (chwToHwc x C H W).length = x.length := by simp [chwToHwc]
  refine ⟨fun c h w hc hh hw => chwToHwc_getD x C H W c h w hlen hc hh hw, ?_, ?_⟩
  · apply List.ext_getElem (by simp [chwToHwc, hwcToChw])
    intro j hj1 hj2
    have hjC : j < C * (H * W) := hlen ▸ hj2
    have hpos : 0 < C * (H * W) := lt_of_le_of_lt (Nat.zero_le j) hjC
    have hC : 0 < C := by
      rcases Nat.eq_zero_or_pos C with h0 | h0
      · rw [h0] at hpos
        simp at hpos
      · exact h0
    have hHW : 0 < H * W := by
      rcases Nat.eq_zero_or_pos (H * W) with h0 | h0
      · rw [h0] at hpos
        simp at hpos
      · exact h0
    have hW : 0 < W := by
      rcases Nat.eq_zero_or_pos W with h0 | h0
      · rw [h0] at hHW
        simp at hHW
      · exact h0
    have hc : j % C < C := Nat.mod_lt j hC
    have hw2 : (j / C) % W < W := Nat.mod_lt _ hW
    have hh2 : j / (C * W) < H := by
      rw [Nat.div_lt_iff_lt_mul (Nat.mul_pos hC hW)]
      calc j < C * (H * W) := hjC
      _ = H * (C * W) := by ring
    have hrec : j = (j / (C * W)) * (W * C) + ((j / C) % W) * C + j % C :=
      (index_recompose C W j).symm
    rw [← List.getD_eq_getElem _ 0 hj1, ← List.getD_eq_getElem _ 0 hj2]
    calc (chwToHwc (hwcToChw x C H W) C H W).getD j 0
        = (chwToHwc (hwcToChw x C H W) C H W).getD
            ((j / (C * W)) * (W * C) + ((j / C) % W) * C + j % C) 0 := by
          rw [← hrec]
      _ = (hwcToChw x C H W).getD
            ((j % C) * (H * W) + (j / (C * W)) * W + (j / C) % W) 0 :=
          chwToHwc_getD _ C H W _ _ _ (by rw [hylen, hlen]) hc hh2 hw2
      _ = x.getD ((j / (C * W)) * (W * C) + ((j / C) % W) * C + j % C) 0 :=
          hwcToChw_getD x C H W _ _ _ hlen hc hh2 hw2
      _ = x.getD j 0 := by rw [← hrec]
  · apply List.ext_getElem (by simp [chwToHwc, hwcToChw])
    intro j hj1 hj2
    have hjC : j < C * (H * W) := hlen ▸ hj2
    have hpos : 0 < C * (H * W) := lt_of_le_of_lt (Nat.zero_le j) hjC
    have hHW : 0 < H * W := by
      rcases Nat.eq_zero_or_pos (H * W) with h0 | h0
      · rw [h0] at hpos
        simp at hpos
      · exact h0
    have hW : 0 < W := by
      rcases Nat.eq_zero_or_pos W with h0 | h0
      · rw [h0] at hHW
        simp at hHW
      · exact h0
    have hc : j / (H * W) < C := by
      rw [Nat.div_lt_iff_lt_mul hHW]
      exact hjC
    have hh2 : (j % (H * W)) / W < H := by
      rw [Nat.div_lt_iff_lt_mul hW]
      exact Nat.mod_lt j hHW
    have hw2 : j % W < W := Nat.mod_lt j hW
    have hmm : (j % (H * W)) % W = j % W := Nat.mod_mod_of_dvd j (dvd_mul_left W H)
    have hrec : j = (j / (H * W)) * (H * W) + ((j % (H * W)) / W) * W + j % W := by
      rw [← hmm]
      exact (index_recompose2 (H * W) W j).symm
    rw [← List.getD_eq_getElem _ 0 hj1, ← List.getD_eq_getElem _ 0 hj2]
    calc (hwcToChw (chwToHwc x C H W) C H W).getD j 0
        = (hwcToChw (chwToHwc x C H W) C H W).getD
            ((j / (H * W)) * (H * W) + ((j % (H * W)) / W) * W + j % W) 0 := by
          rw [← hrec]
      _ = (chwToHwc x C H W).getD
            (((j % (H * W)) / W) * (W * C) + (j % W) * C + j / (H * W)) 0 :=
          hwcToChw_getD _ C H W _ _ _ (by rw [hzlen, hlen]) hc hh2 hw2
      _ = x.getD ((j / (H * W)) * (H * W) + ((j % (H * W)) / W) * W + j % W) 0 :=
          chwToHwc_getD x C H W _ _ _ hlen hc hh2 hw2
      _ = x.getD j 0 := by rw [← hrec]

/-- C7 witness: a `[3,1,2]` tensor (6 elements). -/
theorem chwToHwc_transpose_spec_witness :
    (∀ c h w, c < 3 → h < 1 → w < 2 →
      (chwToHwc [1, 2, 3, 4, 5, 6] 3 1 2).getD (h * (2 * 3) + w * 3 + c) 0 =
        ([1, 2, 3, 4, 5, 6] : List ℚ).getD (c * (1 * 2) + h * 2 + w) 0) ∧
    chwToHwc (hwcToChw [1, 2, 3, 4, 5, 6] 3 1 2) 3 1 2 = [1, 2, 3, 4, 5, 6] ∧
    hwcToChw (chwToHwc [1, 2, 3, 4, 5, 6] 3 1 2) 3 1 2 = [1, 2, 3, 4, 5, 6] :=
  chwToHwc_transpose_spec [1, 2, 3, 4, 5, 6] 3 1 2 (by decide)

theorem applyNormalization_getD (data : List ℚ) (C H W c i : ℕ) (n : Normalization)
    (hlen : data.length = C * (H * W)) (hc : c < C) (hi : i < H * W) :
    (applyNormalization data C H W n).getD (c * (H * W) + i) 0 =
      (data.getD (c * (H * W) + i) 0 * n.scale - n.mean.getD c 0) /
        n.std.getD c 0 := by
  have hguard : c * (H * W) + i < C * (H * W) := mixed_index_lt C (H * W) c i hc hi
  have hjlt : c * (H * W) + i < data.length := by
    rw [hlen]
    exact hguard
  show ((List.range data.length).map (fun idx =>
      if idx < C * (H * W) then
        (data.getD idx 0 * n.scale - n.mean.getD (idx / (H * W)) 0) /
          n.std.getD (idx / (H * W)) 0
      else 0)).getD (c * (H * W) + i) 0 = _
  rw [getD_range_map _ _ _ _ hjlt, if_pos hguard, mixed_div (H * W) c i hi]

/-- C1: in the worker `encodeImage` branch, an element of channel `c`
becomes `(value * scale - mean[c]) / std[c]` when only normalization is
configured, `value * inputRange` when only the flat range is configured,
and `((value * scale - mean[c]) / std[c]) * inputRange` when both are
configured (normalization first); the channel-layout transform is applied
only after this numeric preprocessing. -/
theorem preprocess_order_spec (cfg : ModelConfig) (data : List ℚ)
    (C H W c i : ℕ)
    (hlen : data.length = C * (H * W)) (hc : c < C) (hi : i < H * W) :
    (∀ n, cfg.normalization = some n → cfg.inputRange = none →
      (preprocessData cfg data [1, C, H, W]).getD (c * (H * W) + i) 0 =
        (data.getD (c * (H * W) + i) 0 * n.scale - n.mean.getD c 0) /
          n.std.getD c 0) ∧
    (cfg.normalization = none → ∀ r, cfg.inputRange = some r →
      (preprocessData cfg data [1, C, H, W]).getD (c * (H * W) + i) 0 =
        data.getD (c * (H * W) + i) 0 * r) ∧
    (∀ n r, cfg.normalization = some n → cfg.inputRange = some r →
      (preprocessData cfg data [1, C, H, W]).getD (c * (H * W) + i) 0 =
        ((data.getD (c * (H * W) + i) 0 * n.scale - n.mean.getD c 0) /
          n.std.getD c 0) * r) ∧
    (cfg.tensorFormat = TensorFormat.CHW →
      (encodePreprocess cfg data [1, C, H, W]).1 =
        preprocessData cfg data [1, C, H, W]) ∧
    (cfg.tensorFormat = TensorFormat.HWC → cfg.useBatchDimension = false →
      (encodePreprocess cfg data [1, C, H, W]).1 =
        chwToHwc (preprocessData cfg data [1, C, H, W]) C H W) := by
  have hguard : c * (H * W) + i < C * (H * W) := mixed_index_lt C (H * W) c i hc hi
  have hjlt : c * (H * W) + i < data.length := by
    rw [hlen]
    exact hguard
  refine ⟨?_, ?_, ?_, ?_, ?_⟩
  · intro n hn hr
    have h1 : preprocessData cfg data [1, C, H, W] =
        applyNormalization data C H W n := by
      unfold preprocessData
      rw [hn, hr]
      rfl
    rw [h1]
    exact applyNormalization_getD data C H W c i n hlen hc hi
  · intro hn r hr
    have h1 : preprocessData cfg data [1, C, H, W] = rescaleInput data r := by
      unfold preprocessData
      rw [hn, hr]
    rw [h1]
    show (data.map fun v => v * r).getD (c * (H * W) + i) 0 = _
    rw [getD_map_in data _ _ 0 0 hjlt]
  · intro n r hn hr
    have h1 : preprocessData cfg data [1, C, H, W] =
        rescaleInput (applyNormalization data C H W n) r := by
      unfold preprocessData
      rw [hn, hr]
      rfl
    rw [h1]
    have hNlen : (applyNormalization data C H W n).length = data.length := by
      simp [applyNormalization]
    show ((applyNormalization data C H W n).map fun v => v * r).getD
        (c * (H * W) + i) 0 = _
    rw [getD_map_in _ _ _ 0 0 (by rw [hNlen]; exact hjlt)]
    rw [applyNormalization_getD data C H W c i n hlen hc hi]
  · intro hfmt
    unfold encodePreprocess
    rw [hfmt]
  · intro hfmt hbd
    unfold encodePreprocess
    rw [hfmt, hbd]
    rfl

/-- C1 witness: the MobileSAM descriptor (flat range 255, no normalization)
on a `[1,3,1,2]` tensor at channel 1, pixel 1. -/
theorem preprocess_order_spec_witness :
    (∀ n, MOBILESAM_CONFIG.normalization = some n →
      MOBILESAM_CONFIG.inputRange = none →
      (preprocessData MOBILESAM_CONFIG [1, 2, 3, 4, 5, 6] [1, 3, 1, 2]).getD
          (1 * (1 * 2) + 1) 0 =
        (([1, 2, 3, 4, 5, 6] : List ℚ).getD (1 * (1 * 2) + 1) 0 * n.scale -
          n.mean.getD 1 0) / n.std.getD 1 0) ∧
    (MOBILESAM_CONFIG.normalization = none →
      ∀ r, MOBILESAM_CONFIG.inputRange = some r →
      (preprocessData MOBILESAM_CONFIG [1, 2, 3, 4, 5, 6] [1, 3, 1, 2]).getD
          (1 * (1 * 2) + 1) 0 =
        ([1, 2, 3, 4, 5, 6] : List ℚ).getD (1 * (1 * 2) + 1) 0 * r) ∧
    (∀ n r, MOBILESAM_CONFIG.normalization = some n →
      MOBILESAM_CONFIG.inputRange = some r →
      (preprocessData MOBILESAM_CONFIG [1, 2, 3, 4, 5, 6] [1, 3, 1, 2]).getD
          (1 * (1 * 2) + 1) 0 =
        ((([1, 2, 3, 4, 5, 6] : List ℚ).getD (1 * (1 * 2) + 1) 0 * n.scale -
          n.mean.getD 1 0) / n.std.getD 1 0) * r) ∧
    (MOBILESAM_CONFIG.tensorFormat = TensorFormat.CHW →
      (encodePreprocess MOBILESAM_CONFIG [1, 2, 3, 4, 5, 6] [1, 3, 1, 2]).1 =
        preprocessData MOBILESAM_CONFIG [1, 2, 3, 4, 5, 6] [1, 3, 1, 2]) ∧
    (MOBILESAM_CONFIG.tensorFormat = TensorFormat.HWC →
      MOBILESAM_CONFIG.useBatchDimension = false →
      (encodePreprocess MOBILESAM_CONFIG [1, 2, 3, 4, 5, 6] [1, 3, 1, 2]).1 =
        chwToHwc (preprocessData MOBILESAM_CONFIG [1, 2, 3, 4, 5, 6] [1, 3, 1, 2])
          3 1 2) :=
  preprocess_order_spec MOBILESAM_CONFIG [1, 2, 3, 4, 5, 6] 3 1 2 1 1
    (by decide) (by decide) (by decide)

theorem foldl_min_le_init (xs : List ℕ) : ∀ a : ℕ, xs.foldl min a ≤ a := by
  induction xs with
  | nil => intro a; exact le_refl a
  | cons x xs ih =>
      intro a
      exact le_trans (ih (min a x)) (min_le_left a x)

theorem foldl_min_le_mem (xs : List ℕ) : ∀ a z, z ∈ xs → xs.foldl min a ≤ z := by
  induction xs with
  | nil => intro a z hz; exact absurd hz (List.not_mem_nil z)
  | cons x xs ih =>
      intro a z hz
      rcases List.mem_cons.mp hz with rfl | hz2
      · exact le_trans (foldl_min_le_init xs (min a z)) (min_le_right a z)
      · exact ih (min a x) z hz2

theorem foldl_min_choice (xs : List ℕ) :
    ∀ a, xs.foldl min a = a ∨ xs.foldl min a ∈ xs := by
  induction xs with
  | nil => intro a; left; rfl
  | cons x xs ih =>
      intro a
      rcases ih (min a x) with h | h
      · rcases le_total a x with hax | hax
        · left
          rw [List.foldl_cons, h, min_eq_left hax]
        · right
          rw [List.foldl_cons, h, min_eq_right hax]
          exact List.mem_cons_self x xs
      · right
        rw [List.foldl_cons]
        exact List.mem_cons_of_mem x h

theorem foldl_max_init_le (xs : List ℕ) : ∀ a : ℕ, a ≤ xs.foldl max a := by
  induction xs with
  | nil => intro a; exact le_refl a
  | cons x xs ih =>
      intro a
      exact le_trans (le_max_left a x) (ih (max a x))

theorem foldl_max_mem_le (xs : List ℕ) : ∀ a z, z ∈ xs → z ≤ xs.foldl max a := by
  induction xs with
  | nil => intro a z hz; exact absurd hz (List.not_mem_nil z)
  | cons x xs ih =>
      intro a z hz
      rcases List.mem_cons.mp hz with rfl | hz2
      · exact le_trans (le_max_right a z) (foldl_max_init_le xs (max a z))
      · exact ih (max a x) z hz2

theorem foldl_max_choice (xs : List ℕ) :
    ∀ a, xs.foldl max a = a ∨ xs.foldl max a ∈ xs := by
  induction xs with
  | nil => intro a; left; rfl
  | cons x xs ih =>
      intro a
      rcases ih (max a x) with h | h
      · rcases le_total x a with hax | hax
        · left
          rw [List.foldl_cons, h, max_eq_left hax]
        · right
          rw [List.foldl_cons, h, max_eq_right hax]
          exact List.mem_cons_self x xs
      · right
        rw [List.foldl_cons]
        exact List.mem_cons_of_mem x h

theorem mem_scanCoords (width height : ℕ) (p : ℕ × ℕ) :
    p ∈ scanCoords width height ↔ p.1 < width ∧ p.2 < height := by
  obtain ⟨x, y⟩ := p
  constructor
  · intro hmem
    rcases List.mem_flatMap.mp hmem with ⟨b, hb, hx⟩
    rcases List.mem_map.mp hx with ⟨a, ha, heq⟩
    injection heq with h1 h2
    subst h1
    subst h2
    exact ⟨List.mem_range.mp ha, List.mem_range.mp hb⟩
  · rintro ⟨h1, h2⟩
    exact List.mem_flatMap.mpr ⟨y, List.mem_range.mpr h2,
      List.mem_map.mpr ⟨x, List.mem_range.mpr h1, rfl⟩⟩

theorem boundsStep_foldl (data : List ℚ) (width : ℕ) (threshold : ℚ)
    (L : List (ℕ × ℕ)) : ∀ a b c d : ℕ,
    L.foldl (boundsStep data width threshold) (a, b, c, d) =
      ((L.filter (fun p => maskHit data threshold (p.2 * width + p.1))).foldl
          (fun m p => min m p.1) a,
       (L.filter (fun p => maskHit data threshold (p.2 * width + p.1))).foldl
          (fun m p => min m p.2) b,
       (L.filter (fun p => maskHit data threshold (p.2 * width + p.1))).foldl
          (fun m p => max m p.1) c,
       (L.filter (fun p => maskHit data threshold (p.2 * width + p.1))).foldl
          (fun m p => max m p.2) d) := by
  induction L with
  | nil => intro a b c d; rfl
  | cons p L ih =>
      intro a b c d
      cases hmh : maskHit data threshold (p.2 * width + p.1) with
      | true =>
          rw [List.foldl_cons]
          have hstep : boundsStep data width threshold (a, b, c, d) p =
              (min a p.1, min b p.2, max c p.1, max d p.2) := by
            simp [boundsStep, hmh]
          rw [hstep, ih]
          have hfil : (p :: L).filter
              (fun q => maskHit data threshold (q.2 * width + q.1)) =
              p :: L.filter (fun q => maskHit data threshold (q.2 * width + q.1)) := by
            simp [List.filter_cons, hmh]
          rw [hfil]
          simp only [List.foldl_cons]
      | false =>
          rw [List.foldl_cons]
          have hstep : boundsStep data width threshold (a, b, c, d) p =
              (a, b, c, d) := by
            simp [boundsStep, hmh]
          rw [hstep, ih]
          have hfil : (p :: L).filter
              (fun q => maskHit data threshold (q.2 * width + q.1)) =
              L.filter (fun q => maskHit data threshold (q.2 * width + q.1)) := by
            simp [List.filter_cons, hmh]
          rw [hfil]

theorem findMaskBounds_fold_eq (data : List ℚ) (width height : ℕ) (threshold : ℚ) :
    findMaskBounds data width height threshold =
      if (((scanCoords width height).filter
            (fun p => maskHit data threshold (p.2 * width + p.1))).map
            Prod.fst).foldl max 0 <
          (((scanCoords width height).filter
            (fun p => maskHit data threshold (p.2 * width + p.1))).map
            Prod.fst).foldl min width ∨
        (((scanCoords width height).filter
            (fun p => maskHit data threshold (p.2 * width + p.1))).map
            Prod.snd).foldl max 0 <
          (((scanCoords width height).filter
            (fun p => maskHit data threshold (p.2 * width + p.1))).map
            Prod.snd).foldl min height then
        ⟨0, 0, 0, 0⟩
      else
        ⟨(((scanCoords width height).filter
            (fun p => maskHit data threshold (p.2 * width + p.1))).map
            Prod.fst).foldl min width,
         (((scanCoords width height).filter
            (fun p => maskHit data threshold (p.2 * width + p.1))).map
            Prod.snd).foldl min height,
         (((scanCoords width height).filter
            (fun p => maskHit data threshold (p.2 * width + p.1))).map
            Prod.fst).foldl max 0 -
          (((scanCoords width height).filter
            (fun p => maskHit data threshold (p.2 * width + p.1))).map
            Prod.fst).foldl min width + 1,
         (((scanCoords width height).filter
            (fun p => maskHit data threshold (p.2 * width + p.1))).map
            Prod.snd).foldl max 0 -
          (((scanCoords width height).filter
            (fun p => maskHit data threshold (p.2 * width + p.1))).map
            Prod.snd).foldl min height + 1⟩ := by
  simp only [findMaskBounds]
  rw [boundsStep_foldl data width threshold (scanCoords width height) width height 0 0]
  rw [List.foldl_map Prod.fst min, List.foldl_map Prod.snd min,
    List.foldl_map Prod.fst max, List.foldl_map Prod.snd max]

theorem hit_of_mem_fst (data : List ℚ) (width height : ℕ) (threshold : ℚ) (z : ℕ)
    (hz : z ∈ ((scanCoords width height).filter
      (fun p => maskHit data threshold (p.2 * width + p.1))).map Prod.fst) :
    z < width ∧ ∃ y, y < height ∧ maskHit data threshold (y * width + z) = true := by
  rcases List.mem_map.mp hz with ⟨p, hpH, rfl⟩
  have hmf := List.mem_filter.mp hpH
  have hsc := (mem_scanCoords width height p).mp hmf.1
  exact ⟨hsc.1, p.2, hsc.2, hmf.2⟩

theorem hit_of_mem_snd (data : List ℚ) (width height : ℕ) (threshold : ℚ) (z : ℕ)
    (hz : z ∈ ((scanCoords width height).filter
      (fun p => maskHit data threshold (p.2 * width + p.1))).map Prod.snd) :
    z < height ∧ ∃ x, x < width ∧ maskHit data threshold (z * width + x) = true := by
  rcases List.mem_map.mp hz with ⟨p, hpH, rfl⟩
  have hmf := List.mem_filter.mp hpH
  have hsc := (mem_scanCoords width height p).mp hmf.1
  exact ⟨hsc.2, p.1, hsc.1, hmf.2⟩

/-- C5 (amended): when width and height are not both zero, `findMaskBounds`
returns the zero box at the origin when no pixel exceeds the threshold, and
otherwise the inclusive box `{minX, minY, maxX-minX+1, maxY-minY+1}` over
all pixels whose value strictly exceeds the threshold; in particular a
10×10 mask with a single positive pixel at `(5, 7)` yields
`{x:5, y:7, width:1, height:1}`.  (The original claim also covers the
degenerate 0×0 mask, where the code returns `{0,0,1,1}` — see the
counterexample.) -/
theorem findMaskBounds_spec (data : List ℚ) (width height : ℕ) (threshold : ℚ)
    (hwh : 0 < width ∨ 0 < height) :
    ((∀ x y, x < width → y < height →
        maskHit data threshold (y * width + x) = false) →
      findMaskBounds data width height threshold = ⟨0, 0, 0, 0⟩) ∧
    (∀ x0 y0, x0 < width → y0 < height →
        maskHit data threshold (y0 * width + x0) = true →
      ∃ minX minY maxX maxY,
        findMaskBounds data width height threshold =
          ⟨minX, minY, maxX - minX + 1, maxY - minY + 1⟩ ∧
        minX ≤ maxX ∧ minY ≤ maxY ∧
        (∃ y, y < height ∧ maskHit data threshold (y * width + minX) = true) ∧
        (∃ y, y < height ∧ maskHit data threshold (y * width + maxX) = true) ∧
        (∃ x, x < width ∧ maskHit data threshold (minY * width + x) = true) ∧
        (∃ x, x < width ∧ maskHit data threshold (maxY * width + x) = true) ∧
        (∀ x y, x < width → y < height →
          maskHit data threshold (y * width + x) = true →
          minX ≤ x ∧ x ≤ maxX ∧ minY ≤ y ∧ y ≤ maxY)) ∧
    findMaskBounds singleMask 10 10 0 = ⟨5, 7, 1, 1⟩ := by
  refine ⟨?_, ?_, by decide⟩
  · intro hno
    have hfilter : (scanCoords width height).filter
        (fun p => maskHit data threshold (p.2 * width + p.1)) = [] := by
      cases hH : (scanCoords width height).filter
          (fun p => maskHit data threshold (p.2 * width + p.1)) with
      | nil => rfl
      | cons p t =>
          exfalso
          have hp : p ∈ (scanCoords width height).filter
              (fun q => maskHit data threshold (q.2 * width + q.1)) := by
            rw [hH]
            exact List.mem_cons_self p t
          have hmf := List.mem_filter.mp hp
          have hsc := (mem_scanCoords width height p).mp hmf.1
          have hcontra := hno p.1 p.2 hsc.1 hsc.2
          have htrue : maskHit data threshold (p.2 * width + p.1) = true := hmf.2
          rw [hcontra] at htrue
          exact Bool.false_ne_true htrue
    rw [findMaskBounds_fold_eq, hfilter]
    simp only [List.map_nil, List.foldl_nil]
    rw [if_pos hwh]
  · intro x0 y0 hx0 hy0 hhit
    rw [findMaskBounds_fold_eq]
    set H := (scanCoords width height).filter
      (fun p => maskHit data threshold (p.2 * width + p.1)) with hH
    have hp0 : (x0, y0) ∈ H := by
      rw [hH]
      exact List.mem_filter.mpr
        ⟨(mem_scanCoords width height (x0, y0)).mpr ⟨hx0, hy0⟩, hhit⟩
    have hx0m : x0 ∈ H.map Prod.fst := List.mem_map.mpr ⟨(x0, y0), hp0, rfl⟩
    have hy0m : y0 ∈ H.map Prod.snd := List.mem_map.mpr ⟨(x0, y0), hp0, rfl⟩
    have hminX_le : ∀ z ∈ H.map Prod.fst, (H.map Prod.fst).foldl min width ≤ z :=
      fun z hz => foldl_min_le_mem _ width z hz
    have hmaxX_ge : ∀ z ∈ H.map Prod.fst, z ≤ (H.map Prod.fst).foldl max 0 :=
      fun z hz => foldl_max_mem_le _ 0 z hz
    have hminY_le : ∀ z ∈ H.map Prod.snd, (H.map Prod.snd).foldl min height ≤ z :=
      fun z hz => foldl_min_le_mem _ height z hz
    have hmaxY_ge : ∀ z ∈ H.map Prod.snd, z ≤ (H.map Prod.snd).foldl max 0 :=
      fun z hz => foldl_max_mem_le _ 0 z hz
    have hminXm : (H.map Prod.fst).foldl min width ∈ H.map Prod.fst := by
      rcases foldl_min_choice (H.map Prod.fst) width with he | hm
      · exfalso
        have h1 := hminX_le x0 hx0m
        rw [he] at h1
        omega
      · exact hm
    have hmaxXm : (H.map Prod.fst).foldl max 0 ∈ H.map Prod.fst := by
      rcases foldl_max_choice (H.map Prod.fst) 0 with he | hm
      · have h1 := hmaxX_ge x0 hx0m
        rw [he] at h1
        have hx00 : x0 = 0 := by omega
        rw [he, ← hx00]
        exact hx0m
      · exact hm
    have hminYm : (H.map Prod.snd).foldl min height ∈ H.map Prod.snd := by
      rcases foldl_min_choice (H.map Prod.snd) height with he | hm
      · exfalso
        have h1 := hminY_le y0 hy0m
        rw [he] at h1
        omega
      · exact hm
    have hmaxYm : (H.map Prod.snd).foldl max 0 ∈ H.map Prod.snd := by
      rcases foldl_max_choice (H.map Prod.snd) 0 with he | hm
      · have h1 := hmaxY_ge y0 hy0m
        rw [he] at h1
        have hy00 : y0 = 0 := by omega
        rw [he, ← hy00]
        exact hy0m
      · exact hm
    have hxle : (H.map Prod.fst).foldl min width ≤ (H.map Prod.fst).foldl max 0 :=
      hminX_le _ hmaxXm
    have hyle : (H.map Prod.snd).foldl min height ≤ (H.map Prod.snd).foldl max 0 :=
      hminY_le _ hmaxYm
    have hminXH := hminXm
    rw [hH] at hminXH
    have hmaxXH := hmaxXm
    rw [hH] at hmaxXH
    have hminYH := hminYm
    rw [hH] at hminYH
    have hmaxYH := hmaxYm
    rw [hH] at hmaxYH
    refine ⟨(H.map Prod.fst).foldl min width, (H.map Prod.snd).foldl min height,
      (H.map Prod.fst).foldl max 0, (H.map Prod.snd).foldl max 0, ?_, hxle, hyle,
      (hit_of_mem_fst data width height threshold _ hminXH).2,
      (hit_of_mem_fst data width height threshold _ hmaxXH).2,
      (hit_of_mem_snd data width height threshold _ hminYH).2,
      (hit_of_mem_snd data width height threshold _ hmaxYH).2, ?_⟩
    · have hg : ¬((H.map Prod.fst).foldl max 0 < (H.map Prod.fst).foldl min width ∨
          (H.map Prod.snd).foldl max 0 < (H.map Prod.snd).foldl min height) := by
        push_neg
        exact ⟨hxle, hyle⟩
      rw [if_neg hg]
    · intro x y hx hy hxyhit
      have hpm : (x, y) ∈ H := by
        rw [hH]
        exact List.mem_filter.mpr
          ⟨(mem_scanCoords width height (x, y)).mpr ⟨hx, hy⟩, hxyhit⟩
      exact ⟨hminX_le x (List.mem_map.mpr ⟨(x, y), hpm, rfl⟩),
        hmaxX_ge x (List.mem_map.mpr ⟨(x, y), hpm, rfl⟩),
        hminY_le y (List.mem_map.mpr ⟨(x, y), hpm, rfl⟩),
        hmaxY_ge y (List.mem_map.mpr ⟨(x, y), hpm, rfl⟩)⟩

/-- C5 counterexample: on the empty 0×0 mask no pixel exceeds the
threshold, yet `findMaskBounds` returns `{0,0,1,1}` rather than the zero
box the claim requires (the inverted-extremes guard `minX > maxX or
minY > maxY` is `0 > 0`, hence false). -/
theorem findMaskBounds_empty_counterexample :
    findMaskBounds [] 0 0 0 = ⟨0, 0, 1, 1⟩ ∧
    findMaskBounds [] 0 0 0 ≠ ⟨0, 0, 0, 0⟩ := by decide

/-- C5 witness: the single-pixel 10×10 mask with the hit at `(5, 7)`. -/
theorem findMaskBounds_spec_witness :
    ((∀ x y, x < 10 → y < 10 →
        maskHit singleMask 0 (y * 10 + x) = false) →
      findMaskBounds singleMask 10 10 0 = ⟨0, 0, 0, 0⟩) ∧
    (∀ x0 y0, x0 < 10 → y0 < 10 →
        maskHit singleMask 0 (y0 * 10 + x0) = true →
      ∃ minX minY maxX maxY,
        findMaskBounds singleMask 10 10 0 =
          ⟨minX, minY, maxX - minX + 1, maxY - minY + 1⟩ ∧
        minX ≤ maxX ∧ minY ≤ maxY ∧
        (∃ y, y < 10 ∧ maskHit singleMask 0 (y * 10 + minX) = true) ∧
        (∃ y, y < 10 ∧ maskHit singleMask 0 (y * 10 + maxX) = true) ∧
        (∃ x, x < 10 ∧ maskHit singleMask 0 (minY * 10 + x) = true) ∧
        (∃ x, x < 10 ∧ maskHit singleMask 0 (maxY * 10 + x) = true) ∧
        (∀ x y, x < 10 → y < 10 →
          maskHit singleMask 0 (y * 10 + x) = true →
          minX ≤ x ∧ x ≤ maxX ∧ minY ≤ y ∧ y ≤ maxY)) ∧
    findMaskBounds singleMask 10 10 0 = ⟨5, 7, 1, 1⟩ :=
  findMaskBounds_spec singleMask 10 10 0 (by decide)
